import Mathlib

/-!
Verification of the status-reporter repository: a shallow embedding of the
`result`, `reporter`, and `k8s` packages.

Go strings are modelled as byte sequences (`List Nat`), since the `result`
package's validation operates at the byte level (`len`, `strings.TrimSpace`,
`truncateUTF8`).  ASCII literals from the source are embedded with `ascii`.
-/

set_option maxRecDepth 10000

/-- Byte encoding of an ASCII string literal from the Go source.
For ASCII text the UTF-8 bytes coincide with the code points. -/
def ascii (s : String) : List Nat := s.data.map Char.toNat

namespace Result

/-- Byte value test from Go `utf8.RuneStart`'s complement: a UTF-8
continuation byte satisfies `b & 0xC0 == 0x80`. -/
def isCont (b : Nat) : Bool := decide (0x80 ≤ b) && decide (b < 0xC0)

/-- Go `utf8.RuneStart(b)`: `b & 0xC0 != 0x80`. -/
def runeStart (b : Nat) : Bool := !(isCont b)

/-- State of the UTF-8 validation automaton corresponding to Go
`utf8.Valid`'s first-byte/accept-range tables: `pending` counts the
continuation bytes still expected, and `lo`/`hi` bound the next byte when
`pending > 0` (per `utf8.acceptRanges`: E0 ⇒ A0..BF, ED ⇒ 80..9F,
F0 ⇒ 90..BF, F4 ⇒ 80..8F, all later continuations 80..BF). -/
structure Utf8State where
  pending : Nat
  lo : Nat
  hi : Nat
deriving DecidableEq

/-- Initial (and accepting) automaton state: at a rune boundary. -/
def utf8Start : Utf8State := ⟨0, 0x80, 0xBF⟩

/-- One byte of Go `utf8.Valid`: from a boundary, classify the first byte
per `utf8.first` (rejecting 80..C1 and F5..FF); inside a rune, require the
byte to lie in the accept range and count it off. -/
def utf8Step (s : Utf8State) (b : Nat) : Option Utf8State :=
  if s.pending = 0 then
    if b < 0x80 then some utf8Start
    else if b < 0xC2 then none
    else if b ≤ 0xDF then some ⟨1, 0x80, 0xBF⟩
    else if b = 0xE0 then some ⟨2, 0xA0, 0xBF⟩
    else if b = 0xED then some ⟨2, 0x80, 0x9F⟩
    else if b ≤ 0xEF then some ⟨2, 0x80, 0xBF⟩
    else if b = 0xF0 then some ⟨3, 0x90, 0xBF⟩
    else if b ≤ 0xF3 then some ⟨3, 0x80, 0xBF⟩
    else if b = 0xF4 then some ⟨3, 0x80, 0x8F⟩
    else none
  else if s.lo ≤ b ∧ b ≤ s.hi then some ⟨s.pending - 1, 0x80, 0xBF⟩ else none

/-- Run the UTF-8 automaton over a byte sequence. -/
def utf8Run (s : Utf8State) : List Nat → Option Utf8State
  | [] => some s
  | b :: rest =>
    match utf8Step s b with
    | some next => utf8Run next rest
    | none => none

/-- Go `utf8.Valid` over a byte sequence: the bytes are a concatenation of
well-formed UTF-8 encodings (no overlong forms, no surrogates, max
U+10FFFF), i.e. the automaton consumes them all and ends at a rune
boundary. -/
def validUTF8 (l : List Nat) : Bool := decide (utf8Run utf8Start l = some utf8Start)

/-- Loop body of Go `truncateUTF8`: `for i := maxBytes; i > 0; i--`, returning
`s[:i]` at the first index `i` whose byte is a rune start, else `""`.
The argument is the current loop index `i`. -/
def truncLoop (s : List Nat) : Nat → List Nat
  | 0 => []
  | i + 1 => if runeStart (s.getD (i + 1) 0) then s.take (i + 1) else truncLoop s i

/-- Go `truncateUTF8(s, maxBytes)`: safely truncates `s` to `maxBytes` bytes
without splitting multi-byte UTF-8 characters; falls back to `""` when no
rune boundary is found. -/
def truncateUTF8 (s : List Nat) (maxBytes : Nat) : List Nat :=
  if s.length ≤ maxBytes then s else truncLoop s maxBytes

/-- UTF-8 encodings of every rune satisfying Go `unicode.IsSpace` (the
characters `strings.TrimSpace` removes): TAB LF VT FF CR SP, U+0085,
U+00A0, U+1680, U+2000..U+200A, U+2028, U+2029, U+202F, U+205F, U+3000. -/
def spaceRunes : List (List Nat) :=
  [[9], [10], [11], [12], [13], [32],
   [0xC2, 0x85], [0xC2, 0xA0],
   [0xE1, 0x9A, 0x80],
   [0xE2, 0x80, 0x80], [0xE2, 0x80, 0x81], [0xE2, 0x80, 0x82], [0xE2, 0x80, 0x83],
   [0xE2, 0x80, 0x84], [0xE2, 0x80, 0x85], [0xE2, 0x80, 0x86], [0xE2, 0x80, 0x87],
   [0xE2, 0x80, 0x88], [0xE2, 0x80, 0x89], [0xE2, 0x80, 0x8A],
   [0xE2, 0x80, 0xA8], [0xE2, 0x80, 0xA9], [0xE2, 0x80, 0xAF],
   [0xE2, 0x81, 0x9F],
   [0xE3, 0x80, 0x80]]

/-- One step of left whitespace trimming: when the byte sequence starts with
the UTF-8 encoding of a white-space rune (matching what Go's
`utf8.DecodeRune` + `unicode.IsSpace` accept at the front), return the
remainder; no table entry is a prefix of another, so at most one applies. -/
def dropSpaceRune (l : List Nat) : Option (List Nat) :=
  (spaceRunes.find? (fun c => decide (l.take c.length = c))).map (fun c => l.drop c.length)

/-- Fuelled recursion for `trimLeft`; since `dropSpaceRune` strictly
shrinks its argument, fuel `l.length` always suffices. -/
def trimLeftF : Nat → List Nat → List Nat
  | 0, l => l
  | fuel + 1, l =>
    match dropSpaceRune l with
    | some r => trimLeftF fuel r
    | none => l

/-- Left half of Go `strings.TrimSpace`: removes the maximal run of leading
white-space runes. -/
def trimLeft (l : List Nat) : List Nat := trimLeftF l.length l

/-- One step of right whitespace trimming, operating on the REVERSED byte
sequence: when the reversed sequence starts with a reversed space-rune
encoding (i.e. the original string ends with that complete rune), return
the rest.  This matches Go `utf8.DecodeLastRune` + `unicode.IsSpace` on
the suffix: `DecodeLastRune` only yields a space rune when the final bytes
are exactly one of these encodings. -/
def dropSpaceRuneRev (l : List Nat) : Option (List Nat) :=
  (spaceRunes.find? (fun c => decide (l.take c.length = c.reverse))).map
    (fun c => l.drop c.length)

/-- Fuelled recursion for `trimRightRev`; fuel `l.length` always
suffices. -/
def trimRightRevF : Nat → List Nat → List Nat
  | 0, l => l
  | fuel + 1, l =>
    match dropSpaceRuneRev l with
    | some r => trimRightRevF fuel r
    | none => l

/-- Trailing-whitespace removal on the reversed byte sequence. -/
def trimRightRev (l : List Nat) : List Nat := trimRightRevF l.length l

/-- Right half of Go `strings.TrimSpace`: removes the maximal run of trailing
white-space runes. -/
def trimRight (l : List Nat) : List Nat := (trimRightRev l.reverse).reverse

/-- Go `strings.TrimSpace`: removes leading and trailing white space. -/
def trimSpace (l : List Nat) : List Nat := trimRight (trimLeft l)

/-- Fuelled recursion for `onlySpaces`; fuel `l.length` always suffices. -/
def onlySpacesF : Nat → List Nat → Bool
  | 0, l => l.isEmpty
  | fuel + 1, l =>
    match dropSpaceRune l with
    | some r => onlySpacesF fuel r
    | none => l.isEmpty

/-- Decides whether the byte sequence is a (possibly empty) concatenation of
white-space rune encodings, i.e. the string is empty or all white space. -/
def onlySpaces (l : List Nat) : Bool := onlySpacesF l.length l

/-- Go constant `StatusSuccess = "success"`. -/
def StatusSuccess : List Nat := ascii "success"

/-- Go constant `StatusFailure = "failure"`. -/
def StatusFailure : List Nat := ascii "failure"

/-- Go constant `DefaultReason = "NoReasonProvided"`. -/
def DefaultReason : List Nat := ascii "NoReasonProvided"

/-- Go constant `DefaultMessage = "No message provided"`. -/
def DefaultMessage : List Nat := ascii "No message provided"

/-- Go constant `maxReasonLength = 128`. -/
def maxReasonLength : Nat := 128

/-- Go constant `maxMessageLength = 1024`. -/
def maxMessageLength : Nat := 1024

/-- Go `result.ResultError`: a validation error carrying the violated field
and a message; `Error()` renders it as `field + ": " + message`. -/
structure ResultError where
  field : List Nat
  message : List Nat
deriving DecidableEq

/-- Rendering of Go `(*ResultError).Error()`. -/
def ResultError.render (e : ResultError) : List Nat :=
  e.field ++ ascii ": " ++ e.message

/-- Go `result.AdapterResult`: the result contract any adapter must produce.
The opaque `Details json.RawMessage` field is passed through uninterpreted by
the code paths under verification and is omitted. -/
structure AdapterResult where
  status : List Nat
  reason : List Nat
  message : List Nat
deriving DecidableEq

/-- Go `(*AdapterResult).IsSuccess()`. -/
def AdapterResult.IsSuccess (r : AdapterResult) : Bool := r.status = StatusSuccess

/-- The three normalization steps Go `Validate` applies to each of the two
text fields: `strings.TrimSpace`, default when empty, `truncateUTF8` when
longer than the limit. -/
def normalizeField (v dflt : List Nat) (maxLen : Nat) : List Nat :=
  let v := trimSpace v
  let v := if v = [] then dflt else v
  if maxLen < v.length then truncateUTF8 v maxLen else v

/-- Go `(*AdapterResult).Validate()`: validates and normalizes the result.
Go mutates the receiver; here the first component is the returned error
(`none` = `nil`) and the second is the receiver's state after the call. -/
def Validate (r : AdapterResult) : Option ResultError × AdapterResult :=
  if r.status ≠ StatusSuccess ∧ r.status ≠ StatusFailure then
    (some ⟨ascii "status", ascii "must be either 'success' or 'failure'"⟩, r)
  else
    (none, { r with
      reason := normalizeField r.reason DefaultReason maxReasonLength
      message := normalizeField r.message DefaultMessage maxMessageLength })

end Result

namespace K8s

/-- Go `k8s.JobCondition` as constructed by the reporter; a zero
`lastTransitionTime` models Go's zero `time.Time` (the reporter never sets
the field, so it is always zero there). -/
structure JobCondition where
  type : List Nat
  status : List Nat
  reason : List Nat
  message : List Nat
  lastTransitionTime : Nat := 0
deriving DecidableEq

/-- Go `batchv1.JobCondition`, restricted to the fields `UpdateJobStatus`
reads and writes; timestamps are abstract `Nat` instants. -/
structure BatchJobCondition where
  type : List Nat
  status : List Nat
  lastTransitionTime : Nat
  reason : List Nat
  message : List Nat
deriving DecidableEq

/-- Go `corev1.ConditionTrue`. -/
def ConditionTrue : List Nat := ascii "True"

/-- Go `corev1.ConditionFalse`. -/
def ConditionFalse : List Nat := ascii "False"

/-- Go `corev1.ConditionUnknown`. -/
def ConditionUnknown : List Nat := ascii "Unknown"

/-- Result of one step of the condition-merge loop in `UpdateJobStatus`:
either an existing condition of the same type was semantically identical
(the function returns nil without writing), or the resulting condition
list to be written. -/
inductive MergeStep where
  | identical
  | merged (l : List BatchJobCondition)
deriving DecidableEq

/-- The `for i, existing := range job.Status.Conditions` loop of
`UpdateJobStatus`: at the first condition of the same type, return without
writing when status/reason/message coincide, else replace it in place and
stop scanning; append when no condition of the type exists. -/
def mergeLoop (newCondition : BatchJobCondition) : List BatchJobCondition → MergeStep
  | [] => .merged [newCondition]
  | existing :: rest =>
    if existing.type = newCondition.type then
      if existing.status = newCondition.status ∧ existing.reason = newCondition.reason ∧
          existing.message = newCondition.message then
        .identical
      else
        .merged (newCondition :: rest)
    else
      match mergeLoop newCondition rest with
      | .identical => .identical
      | .merged l => .merged (existing :: l)

/-- Outcome of Go `(*Client).UpdateJobStatus` (one attempt; the
retry-on-conflict wrapper is a standard library behavior outside the core):
rejection of a non-True/False/Unknown status, a no-op that preserves the
remote object (and hence every existing `LastTransitionTime`), or a status
write carrying the new condition list. -/
inductive UpdateOutcome where
  | invalidStatus
  | noop
  | write (l : List BatchJobCondition)
deriving DecidableEq

/-- Go `(*Client).UpdateJobStatus`: validate the status token, build the
new condition (defaulting a zero transition time to `now`), and merge it
into the job's current conditions. `existing` is the condition list of the
fetched job and `now` the current clock instant. -/
def UpdateJobStatus (condition : JobCondition) (existing : List BatchJobCondition)
    (now : Nat) : UpdateOutcome :=
  if condition.status ≠ ConditionTrue ∧ condition.status ≠ ConditionFalse ∧
      condition.status ≠ ConditionUnknown then
    .invalidStatus
  else
    let transitionTime := if condition.lastTransitionTime = 0 then now else condition.lastTransitionTime
    let newCondition : BatchJobCondition :=
      { type := condition.type
        status := condition.status
        lastTransitionTime := transitionTime
        reason := condition.reason
        message := condition.message }
    match mergeLoop newCondition existing with
    | .identical => .noop
    | .merged l => .write l

end K8s

namespace Reporter

/-- Go constant `ConditionStatusTrue = "True"`. -/
def ConditionStatusTrue : List Nat := ascii "True"

/-- Go constant `ConditionStatusFalse = "False"`. -/
def ConditionStatusFalse : List Nat := ascii "False"

/-- Go constant `ReasonAdapterOOMKilled`. -/
def ReasonAdapterOOMKilled : List Nat := ascii "AdapterOOMKilled"

/-- Go constant `ReasonAdapterExitedWithError`. -/
def ReasonAdapterExitedWithError : List Nat := ascii "AdapterExitedWithError"

/-- Go constant `ReasonAdapterTimeout`. -/
def ReasonAdapterTimeout : List Nat := ascii "AdapterTimeout"

/-- Go constant `ReasonInvalidResultFormat`. -/
def ReasonInvalidResultFormat : List Nat := ascii "InvalidResultFormat"

/-- Go constant `ReasonAdapterMissingResults`. -/
def ReasonAdapterMissingResults : List Nat := ascii "AdapterMissingResults"

/-- Go constant `ContainerReasonOOMKilled = "OOMKilled"`. -/
def ContainerReasonOOMKilled : List Nat := ascii "OOMKilled"

/-- The fields of Go `reporter.StatusReporter` consulted by the functions
under verification. `maxWaitTime` is the configured deadline as rendered by
Go's `time.Duration` formatting (the form in which it reaches messages). -/
structure StatusReporter where
  conditionType : List Nat
  podName : List Nat
  maxWaitTime : List Nat

/-- Go `corev1.ContainerStateTerminated`, restricted to the fields the
reporter reads; `exitCode` is the `int32` exit code. -/
structure ContainerStateTerminated where
  reason : List Nat
  exitCode : Int
deriving DecidableEq

/-- State of the filesystem at the configured results path at the moment
`tryParseResultFile` runs, abstracted to the cases the code distinguishes:
absent (stat fails with not-exist), a stat error such as permission denied,
a file that exists but cannot be read or JSON-decoded (also empty or
oversized files), or a file whose JSON decodes to a record (which `Parse`
then validates). -/
inductive FsState where
  | absent
  | statError (msg : List Nat)
  | unreadable (msg : List Nat)
  | decoded (rec : Result.AdapterResult)

/-- Outcome of Go `tryParseResultFile`: a parsed and validated record, an
`os.ErrNotExist`-classified error, or any other error. -/
inductive ParseOutcome where
  | ok (r : Result.AdapterResult)
  | errNotExist
  | errOther (msg : List Nat)
deriving DecidableEq

/-- Go `(*StatusReporter).tryParseResultFile`: stat the results path, then
read+parse.  Parse errors (including validation failures) are wrapped as
`parse failed: ...`; a missing file surfaces as `os.ErrNotExist`. -/
def tryParseResultFile (fs : FsState) : ParseOutcome :=
  match fs with
  | .absent => .errNotExist
  | .statError m => .errOther m
  | .unreadable m => .errOther (ascii "parse failed: " ++ m)
  | .decoded rec =>
    match Result.Validate rec with
    | (some e, _) => .errOther (ascii "parse failed: invalid result format: " ++ e.render)
    | (none, rec') => .ok rec'

/-- Go `(*StatusReporter).UpdateFromResult`: publishes a condition computed
from the adapter result.  `pubErr` is the error returned by the
`UpdateJobStatus` collaborator call (`none` = success); the result pairs the
condition handed to the collaborator with the function's returned error. -/
def UpdateFromResult (r : StatusReporter) (adapterResult : Result.AdapterResult)
    (pubErr : Option (List Nat)) : K8s.JobCondition × Option (List Nat) :=
  let conditionStatus := if adapterResult.IsSuccess then ConditionStatusTrue else ConditionStatusFalse
  let condition : K8s.JobCondition :=
    { type := r.conditionType
      status := conditionStatus
      reason := adapterResult.reason
      message := adapterResult.message }
  match pubErr with
  | some e =>
    (condition, some (ascii "failed to update job status: pod=" ++ r.podName ++
      ascii " condition=" ++ r.conditionType ++ ascii ": " ++ e))
  | none => (condition, none)

/-- Go `(*StatusReporter).UpdateFromError`: publishes an
`InvalidResultFormat` condition and, when publishing succeeds, returns the
original parse error `err`. -/
def UpdateFromError (r : StatusReporter) (err : List Nat)
    (pubErr : Option (List Nat)) : K8s.JobCondition × Option (List Nat) :=
  let condition : K8s.JobCondition :=
    { type := r.conditionType
      status := ConditionStatusFalse
      reason := ReasonInvalidResultFormat
      message := ascii "Failed to parse adapter result: " ++ err }
  match pubErr with
  | some e => (condition, some (ascii "failed to update job status: " ++ e))
  | none => (condition, some err)

/-- Go `(*StatusReporter).UpdateFromTerminatedContainer`: classifies the
termination, publishes a `False` condition, and always returns a non-nil
error. -/
def UpdateFromTerminatedContainer (r : StatusReporter)
    (terminated : ContainerStateTerminated)
    (pubErr : Option (List Nat)) : K8s.JobCondition × Option (List Nat) :=
  let rm : List Nat × List Nat :=
    if terminated.reason = ContainerReasonOOMKilled then
      (ReasonAdapterOOMKilled, ascii "Adapter container was killed due to out of memory (OOMKilled)")
    else if terminated.exitCode ≠ 0 then
      (ReasonAdapterExitedWithError,
        ascii "Adapter container exited with code " ++ ascii (toString terminated.exitCode) ++
        ascii ": " ++ terminated.reason)
    else
      (ReasonAdapterMissingResults,
        ascii "Adapter container exited successfully (code 0) but did not produce a valid result file: " ++
        terminated.reason)
  let condition : K8s.JobCondition :=
    { type := r.conditionType
      status := ConditionStatusFalse
      reason := rm.1
      message := rm.2 }
  match pubErr with
  | some e => (condition, some (ascii "failed to update job status: " ++ e))
  | none => (condition, some (ascii "adapter container terminated: " ++ rm.2))

/-- Go `(*StatusReporter).HandleTermination`: try the result file first; a
valid record wins, otherwise (missing file, or any read/parse error) fall
back to the container termination state. -/
def HandleTermination (r : StatusReporter) (terminated : ContainerStateTerminated)
    (fs : FsState) (pubErr : Option (List Nat)) : K8s.JobCondition × Option (List Nat) :=
  match tryParseResultFile fs with
  | .ok adapterResult => UpdateFromResult r adapterResult pubErr
  | .errNotExist => UpdateFromTerminatedContainer r terminated pubErr
  | .errOther _ => UpdateFromTerminatedContainer r terminated pubErr

/-- Result of the single `GetAdapterContainerStatus` call made by
`UpdateFromTimeout`: the call errored, returned a nil status, returned a
status with `State.Terminated == nil` (container still running), or
returned a terminated state. -/
inductive ContainerQuery where
  | queryError (msg : List Nat)
  | nilStatus
  | running
  | terminated (t : ContainerStateTerminated)

/-- Go `(*StatusReporter).UpdateFromTimeout`: on deadline expiry, check the
container state once; delegate to the termination decision tree if
terminated, else publish `AdapterTimeout` and return a timeout error.  The
first component counts the `GetAdapterContainerStatus` calls performed
(the code makes exactly one, unconditionally, with no loop). -/
def UpdateFromTimeout (r : StatusReporter) (query : ContainerQuery)
    (pubErr : Option (List Nat)) : Nat × K8s.JobCondition × Option (List Nat) :=
  match query with
  | .terminated t => (1, UpdateFromTerminatedContainer r t pubErr)
  | _ =>
    let condition : K8s.JobCondition :=
      { type := r.conditionType
        status := ConditionStatusFalse
        reason := ReasonAdapterTimeout
        message := ascii "Adapter did not produce results within " ++ r.maxWaitTime }
    match pubErr with
    | some e => (1, condition, some (ascii "failed to update job status: " ++ e))
    | none => (1, condition, some (ascii "timeout waiting for adapter results"))

end Reporter

/-! ## Byte-level UTF-8 lemmas -/

namespace Result

theorem isCont_iff {b : Nat} : isCont b = true ↔ 0x80 ≤ b ∧ b < 0xC0 := by
  unfold isCont
  rw [Bool.and_eq_true, decide_eq_true_eq, decide_eq_true_eq]

theorem runeStart_iff {b : Nat} : runeStart b = true ↔ ¬(0x80 ≤ b ∧ b < 0xC0) := by
  unfold runeStart
  constructor
  · intro h hc
    rw [isCont_iff.mpr hc] at h
    exact Bool.noConfusion h
  · intro h
    cases hc : isCont b
    · rfl
    · exact absurd (isCont_iff.mp hc) h

/-- Well-formedness invariant on reachable automaton states. -/
def stateWF (s : Utf8State) : Prop :=
  (s.pending = 0 → s = utf8Start) ∧
  (0 < s.pending → 0x80 ≤ s.lo ∧ s.hi ≤ 0xBF ∧ s.pending ≤ 3)

theorem stateWF_start : stateWF utf8Start := by
  constructor
  · intro _; rfl
  · intro h; simp [utf8Start] at h

theorem utf8Step_start_runeStart {s : Utf8State} {b : Nat} {s' : Utf8State}
    (hp : s.pending = 0) (h : utf8Step s b = some s') : runeStart b = true := by
  rw [runeStart_iff]
  rintro ⟨h1, h2⟩
  have hb1 : ¬ b < 0x80 := by omega
  have hb2 : b < 0xC2 := by omega
  unfold utf8Step at h
  rw [if_pos hp, if_neg hb1, if_pos hb2] at h
  exact Option.noConfusion h

theorem utf8Step_cont {s : Utf8State} {b : Nat} {s' : Utf8State}
    (hwf : stateWF s) (hp : 0 < s.pending) (h : utf8Step s b = some s') :
    isCont b = true := by
  obtain ⟨hlo, hhi, _⟩ := hwf.2 hp
  unfold utf8Step at h
  rw [if_neg (by omega)] at h
  split at h
  · next hc => rw [isCont_iff]; omega
  · exact Option.noConfusion h

theorem utf8Step_wf {s : Utf8State} {b : Nat} {s' : Utf8State}
    (hwf : stateWF s) (h : utf8Step s b = some s') : stateWF s' := by
  unfold utf8Step at h
  by_cases hp : s.pending = 0
  · rw [if_pos hp] at h
    repeat' split at h
    all_goals first
      | exact Option.noConfusion h
      | (cases h
         exact ⟨fun hz => by first | rfl | exact absurd hz (by decide),
           fun hpos => by first | exact absurd hpos (by decide) | decide⟩)
  · rw [if_neg hp] at h
    split at h
    · cases h
      constructor
      · intro hz
        change s.pending - 1 = 0 at hz
        exact congrArg (fun n => (⟨n, 0x80, 0xBF⟩ : Utf8State)) hz
      · intro hpos
        have h3 := (hwf.2 (by omega)).2.2
        exact ⟨le_refl _, le_refl _, by change s.pending - 1 ≤ 3; omega⟩
    · exact Option.noConfusion h

theorem utf8Run_append (s : Utf8State) (a b : List Nat) :
    utf8Run s (a ++ b) = (utf8Run s a).bind (fun s' => utf8Run s' b) := by
  induction a generalizing s with
  | nil => rfl
  | cons x xs ih =>
    cases hs : utf8Step s x with
    | some next =>
      simp only [List.cons_append, utf8Run, hs]
      exact ih next
    | none =>
      simp only [List.cons_append, utf8Run, hs]
      rfl

theorem utf8Run_wf {s s' : Utf8State} {l : List Nat}
    (hwf : stateWF s) (h : utf8Run s l = some s') : stateWF s' := by
  induction l generalizing s with
  | nil => cases h; exact hwf
  | cons x xs ih =>
    unfold utf8Run at h
    cases hs : utf8Step s x with
    | some next =>
      rw [hs] at h
      exact ih (utf8Step_wf hwf hs) h
    | none => rw [hs] at h; exact Option.noConfusion h

end Result
namespace Result

theorem utf8_descend : ∀ (p : Nat) (s : Utf8State) (l : List Nat),
    s.pending = p → stateWF s → utf8Run s l = some utf8Start →
    p ≤ l.length ∧ utf8Run utf8Start (l.drop p) = some utf8Start := by
  intro p
  induction p with
  | zero =>
    intro s l hp hwf h
    rw [hwf.1 hp] at h
    exact ⟨Nat.zero_le _, by simpa using h⟩
  | succ q ih =>
    intro s l hp hwf h
    cases l with
    | nil =>
      exfalso
      unfold utf8Run at h
      have hs : s = utf8Start := Option.some.inj h
      rw [hs] at hp
      simp [utf8Start] at hp
    | cons b rest =>
      unfold utf8Run at h
      cases hs : utf8Step s b with
      | none => rw [hs] at h; exact Option.noConfusion h
      | some next =>
        rw [hs] at h
        have hnp : next.pending = q := by
          unfold utf8Step at hs
          rw [if_neg (by omega)] at hs
          split at hs
          · cases hs; change s.pending - 1 = q; omega
          · exact Option.noConfusion hs
        have hnwf := utf8Step_wf hwf hs
        obtain ⟨hle, hrun⟩ := ih next rest hnp hnwf h
        exact ⟨by simpa using Nat.succ_le_succ hle, by simpa using hrun⟩

end Result
namespace Result

theorem validUTF8_take {l : List Nat} (h : validUTF8 l = true) :
    ∀ k, k < l.length → runeStart (l.getD k 0) = true → validUTF8 (l.take k) = true := by
  intro k hk hrs
  unfold validUTF8 at h ⊢
  rw [decide_eq_true_eq] at h
  rw [decide_eq_true_eq]
  have hsplit : utf8Run utf8Start (l.take k ++ l.drop k) = some utf8Start := by
    rw [List.take_append_drop]; exact h
  rw [utf8Run_append] at hsplit
  cases hsk : utf8Run utf8Start (l.take k) with
  | none => rw [hsk] at hsplit; exact Option.noConfusion hsplit
  | some sk =>
    rw [hsk] at hsplit
    rw [Option.some_bind] at hsplit
    have hwf := utf8Run_wf stateWF_start hsk
    by_cases hp : sk.pending = 0
    · rw [hwf.1 hp] at hsk
      rw [hwf.1 hp]
    · exfalso
      have hdrop : l.drop k = l[k] :: l.drop (k + 1) := List.drop_eq_getElem_cons hk
      rw [List.getD_eq_getElem _ _ hk] at hrs
      rw [hdrop] at hsplit
      unfold utf8Run at hsplit
      cases hs : utf8Step sk l[k] with
      | none => rw [hs] at hsplit; exact Option.noConfusion hsplit
      | some nx =>
        have hc := utf8Step_cont hwf (by omega) hs
        unfold runeStart at hrs
        rw [hc] at hrs
        exact Bool.noConfusion hrs

theorem validUTF8_head {b : Nat} {rest : List Nat}
    (h : validUTF8 (b :: rest) = true) : runeStart b = true := by
  unfold validUTF8 at h
  rw [decide_eq_true_eq] at h
  unfold utf8Run at h
  cases hs : utf8Step utf8Start b with
  | none => rw [hs] at h; exact Option.noConfusion h
  | some next => exact utf8Step_start_runeStart rfl hs

theorem validUTF8_near_start {l : List Nat} (h : validUTF8 l = true)
    {m : Nat} (hm4 : 4 ≤ m) (hml : m < l.length) :
    ∃ j, 1 ≤ j ∧ j ≤ m ∧ runeStart (l.getD j 0) = true := by
  have h' : utf8Run utf8Start l = some utf8Start := by
    unfold validUTF8 at h; exact of_decide_eq_true h
  set k := m - 3 with hk
  have hkl : k < l.length := by omega
  have hsplit : utf8Run utf8Start (l.take k ++ l.drop k) = some utf8Start := by
    rw [List.take_append_drop]; exact h'
  rw [utf8Run_append] at hsplit
  cases hsk : utf8Run utf8Start (l.take k) with
  | none => rw [hsk] at hsplit; exact Option.noConfusion hsplit
  | some sk =>
    rw [hsk, Option.some_bind] at hsplit
    have hwf := utf8Run_wf stateWF_start hsk
    obtain ⟨hple, hrun⟩ := utf8_descend sk.pending sk (l.drop k) rfl hwf hsplit
    have hpend3 : sk.pending ≤ 3 := by
      by_cases hp : sk.pending = 0
      · omega
      · exact (hwf.2 (by omega)).2.2
    refine ⟨k + sk.pending, by omega, by omega, ?_⟩
    have hjl : k + sk.pending < l.length := by omega
    have hdrop : (l.drop k).drop sk.pending = l[k + sk.pending] :: l.drop (k + sk.pending + 1) := by
      rw [List.drop_drop]
      exact List.drop_eq_getElem_cons hjl
    rw [hdrop] at hrun
    unfold utf8Run at hrun
    cases hs : utf8Step utf8Start l[k + sk.pending] with
    | none => rw [hs] at hrun; exact Option.noConfusion hrun
    | some next =>
      rw [List.getD_eq_getElem _ _ hjl]
      exact utf8Step_start_runeStart rfl hs

end Result
namespace Result

theorem truncLoop_spec (s : List Nat) : ∀ m : Nat,
    truncLoop s m = [] ∨
    ∃ i, 1 ≤ i ∧ i ≤ m ∧ runeStart (s.getD i 0) = true ∧ truncLoop s m = s.take i := by
  intro m
  induction m with
  | zero => exact Or.inl rfl
  | succ n ih =>
    by_cases hr : runeStart (s.getD (n + 1) 0) = true
    · exact Or.inr ⟨n + 1, by omega, le_refl _, hr,
        by rw [show truncLoop s (n + 1) =
          (if runeStart (s.getD (n + 1) 0) = true then s.take (n + 1) else truncLoop s n) from rfl,
          if_pos hr]⟩
    · have hstep : truncLoop s (n + 1) = truncLoop s n := by
        rw [show truncLoop s (n + 1) =
          (if runeStart (s.getD (n + 1) 0) = true then s.take (n + 1) else truncLoop s n) from rfl,
          if_neg hr]
      rcases ih with h0 | ⟨i, h1, h2, h3, h4⟩
      · exact Or.inl (hstep.trans h0)
      · exact Or.inr ⟨i, h1, by omega, h3, hstep.trans h4⟩

theorem truncLoop_empty_no_start (s : List Nat) (hs : s ≠ []) : ∀ m : Nat,
    truncLoop s m = [] → ∀ j, 1 ≤ j → j ≤ m → runeStart (s.getD j 0) = false := by
  intro m
  induction m with
  | zero => intro _ j hj1 hj2; omega
  | succ n ih =>
    intro h j hj1 hj2
    by_cases hr : runeStart (s.getD (n + 1) 0) = true
    · exfalso
      rw [show truncLoop s (n + 1) =
        (if runeStart (s.getD (n + 1) 0) = true then s.take (n + 1) else truncLoop s n) from rfl,
        if_pos hr] at h
      exact hs (by simpa using h)
    · have hstep : truncLoop s (n + 1) = truncLoop s n := by
        rw [show truncLoop s (n + 1) =
          (if runeStart (s.getD (n + 1) 0) = true then s.take (n + 1) else truncLoop s n) from rfl,
          if_neg hr]
      rcases Nat.lt_or_ge j (n + 1) with hj | hj
      · exact ih (hstep.symm.trans h) j hj1 (by omega)
      · have : j = n + 1 := by omega
        rw [this]
        exact Bool.not_eq_true _ ▸ hr

/-- Claim C7: for every valid-UTF-8 byte string longer than the limit (128
for reason, 1024 for message; proved for any limit), truncateUTF8 returns a
prefix of the input of at most the limit in bytes, ending on a UTF-8 rune
boundary (the byte after the cut is a rune start), itself valid UTF-8. -/
theorem truncateUTF8_valid_prefix (s : List Nat) (m : Nat)
    (hv : validUTF8 s = true) (hlen : m < s.length) :
    (truncateUTF8 s m).length ≤ m ∧
    truncateUTF8 s m = s.take (truncateUTF8 s m).length ∧
    runeStart (s.getD (truncateUTF8 s m).length 0) = true ∧
    validUTF8 (truncateUTF8 s m) = true := by
  have hne : ¬ s.length ≤ m := by omega
  unfold truncateUTF8
  rw [if_neg hne]
  rcases truncLoop_spec s m with h0 | ⟨i, hi1, him, hrs, heq⟩
  · rw [h0]
    refine ⟨by simp, by simp, ?_, by decide⟩
    cases s with
    | nil => simp at hlen
    | cons b rest =>
      simpa using validUTF8_head hv
  · rw [heq]
    have hlt : (s.take i).length = i := by
      rw [List.length_take]
      omega
    rw [hlt]
    exact ⟨him, rfl, hrs, validUTF8_take hv i (by omega) hrs⟩

end Result
namespace Result

theorem utf8Run_cons {s s' : Utf8State} {b : Nat} (h : utf8Step s b = some s')
    (rest : List Nat) : utf8Run s (b :: rest) = utf8Run s' rest := by
  simp only [utf8Run, h]

theorem dropSpaceRune_decomp {l r : List Nat} (h : dropSpaceRune l = some r) :
    ∃ c ∈ spaceRunes, l = c ++ r := by
  unfold dropSpaceRune at h
  cases hf : spaceRunes.find? (fun c => decide (l.take c.length = c)) with
  | none => rw [hf] at h; exact Option.noConfusion h
  | some c =>
    rw [hf] at h
    have hp := List.find?_some hf
    have hmem : c ∈ spaceRunes := List.mem_of_find?_eq_some hf
    have htake : l.take c.length = c := by simpa using hp
    have hr : r = l.drop c.length := by
      simp only [Option.map] at h
      exact (Option.some.inj h).symm
    refine ⟨c, hmem, ?_⟩
    have hsplit : l = l.take c.length ++ l.drop c.length := (List.take_append_drop _ _).symm
    rw [htake] at hsplit
    rw [hr]
    exact hsplit

theorem spaceRunes_run : ∀ c ∈ spaceRunes, utf8Run utf8Start c = some utf8Start := by decide

theorem dropSpaceRune_valid {l r : List Nat} (h : dropSpaceRune l = some r)
    (hv : validUTF8 l = true) : validUTF8 r = true := by
  obtain ⟨c, hmem, hl⟩ := dropSpaceRune_decomp h
  unfold validUTF8 at hv ⊢
  rw [decide_eq_true_eq] at hv
  rw [decide_eq_true_eq]
  rw [hl, utf8Run_append, spaceRunes_run c hmem, Option.some_bind] at hv
  exact hv

end Result
namespace Result

theorem validUTF8_append_head {a : List Nat} {ch : Nat} {ct : List Nat}
    (hv : validUTF8 (a ++ ch :: ct) = true) (hch : runeStart ch = true) :
    validUTF8 a = true := by
  have hlen : a.length < (a ++ ch :: ct).length := by simp
  have hgd : (a ++ ch :: ct).getD a.length 0 = ch := by
    rw [List.getD_eq_getElem _ _ hlen]
    rw [List.getElem_append_right (le_refl a.length)]
    simp
  have := validUTF8_take hv a.length hlen (by rw [hgd]; exact hch)
  rwa [List.take_left] at this

theorem dropSpaceRuneRev_decomp {l r : List Nat} (h : dropSpaceRuneRev l = some r) :
    ∃ c ∈ spaceRunes, l = c.reverse ++ r := by
  unfold dropSpaceRuneRev at h
  cases hf : spaceRunes.find? (fun c => decide (l.take c.length = c.reverse)) with
  | none => rw [hf] at h; exact Option.noConfusion h
  | some c =>
    rw [hf] at h
    have hp := List.find?_some hf
    have hmem : c ∈ spaceRunes := List.mem_of_find?_eq_some hf
    have htake : l.take c.length = c.reverse := by simpa using hp
    have hr : r = l.drop c.length := by
      simp only [Option.map] at h
      exact (Option.some.inj h).symm
    refine ⟨c, hmem, ?_⟩
    have hclen : c.length = c.reverse.length := (List.length_reverse c).symm
    have hsplit : l = l.take c.length ++ l.drop c.length := (List.take_append_drop _ _).symm
    rw [htake] at hsplit
    rw [hr]
    exact hsplit

theorem spaceRunes_head : ∀ c ∈ spaceRunes, c ≠ [] ∧ runeStart (c.getD 0 0) = true := by
  decide

theorem dropSpaceRuneRev_valid {l r : List Nat} (h : dropSpaceRuneRev l = some r)
    (hv : validUTF8 l.reverse = true) : validUTF8 r.reverse = true := by
  obtain ⟨c, hmem, hl⟩ := dropSpaceRuneRev_decomp h
  obtain ⟨hne, hrs⟩ := spaceRunes_head c hmem
  cases hc : c with
  | nil => exact absurd hc hne
  | cons ch ct =>
    have hlrev : l.reverse = r.reverse ++ ch :: ct := by
      rw [hl, hc]
      simp
    rw [hlrev] at hv
    exact validUTF8_append_head hv (by rw [hc] at hrs; simpa using hrs)

theorem trimLeftF_valid : ∀ (fuel : Nat) (l : List Nat),
    validUTF8 l = true → validUTF8 (trimLeftF fuel l) = true := by
  intro fuel
  induction fuel with
  | zero => intro l hv; exact hv
  | succ n ih =>
    intro l hv
    unfold trimLeftF
    cases hd : dropSpaceRune l with
    | some r => exact ih r (dropSpaceRune_valid hd hv)
    | none => exact hv

theorem trimRightRevF_valid : ∀ (fuel : Nat) (l : List Nat),
    validUTF8 l.reverse = true → validUTF8 (trimRightRevF fuel l).reverse = true := by
  intro fuel
  induction fuel with
  | zero => intro l hv; exact hv
  | succ n ih =>
    intro l hv
    unfold trimRightRevF
    cases hd : dropSpaceRuneRev l with
    | some r => exact ih r (dropSpaceRuneRev_valid hd hv)
    | none => exact hv

theorem trimSpace_valid {l : List Nat} (hv : validUTF8 l = true) :
    validUTF8 (trimSpace l) = true := by
  unfold trimSpace trimRight trimRightRev trimLeft
  have h1 := trimLeftF_valid l.length l hv
  have h2 := trimRightRevF_valid (trimLeftF l.length l).reverse.length
    (trimLeftF l.length l).reverse (by rwa [List.reverse_reverse])
  exact h2

theorem onlySpacesF_trimLeftF : ∀ (fuel : Nat) (l : List Nat),
    onlySpacesF fuel l = true → trimLeftF fuel l = [] := by
  intro fuel
  induction fuel with
  | zero => intro l h; exact List.isEmpty_iff.mp h
  | succ n ih =>
    intro l h
    unfold onlySpacesF at h
    unfold trimLeftF
    cases hd : dropSpaceRune l with
    | some r => rw [hd] at h; exact ih r h
    | none => rw [hd] at h; exact List.isEmpty_iff.mp h

theorem trimSpace_of_onlySpaces {l : List Nat} (h : onlySpaces l = true) :
    trimSpace l = [] := by
  unfold trimSpace trimLeft
  rw [onlySpacesF_trimLeftF l.length l h]
  rfl

theorem truncateUTF8_ne_nil {s : List Nat} {m : Nat} (hv : validUTF8 s = true)
    (hm : 4 ≤ m) (hlen : m < s.length) : truncateUTF8 s m ≠ [] := by
  intro hempty
  obtain ⟨j, hj1, hjm, hrs⟩ := validUTF8_near_start hv hm hlen
  have hne : s ≠ [] := by
    intro hs
    rw [hs] at hlen
    simp at hlen
  unfold truncateUTF8 at hempty
  rw [if_neg (by omega)] at hempty
  have := truncLoop_empty_no_start s hne m hempty j hj1 hjm
  rw [hrs] at this
  exact Bool.noConfusion this

end Result
namespace Result

theorem normalizeField_of_onlySpaces {v dflt : List Nat} {maxLen : Nat}
    (h : onlySpaces v = true) (hdl : dflt.length ≤ maxLen) :
    normalizeField v dflt maxLen = dflt := by
  unfold normalizeField
  simp only [trimSpace_of_onlySpaces h, if_true]
  rw [if_neg (by omega)]

theorem normalizeField_ne_nil {v dflt : List Nat} {maxLen : Nat}
    (hv : validUTF8 v = true) (hd : dflt ≠ []) (hdl : dflt.length ≤ maxLen)
    (hm : 4 ≤ maxLen) : normalizeField v dflt maxLen ≠ [] := by
  unfold normalizeField
  by_cases ht : trimSpace v = []
  · simp only [ht, if_true]
    rw [if_neg (by omega)]
    exact hd
  · simp only [if_neg ht]
    by_cases hlen : maxLen < (trimSpace v).length
    · rw [if_pos hlen]
      exact truncateUTF8_ne_nil (trimSpace_valid hv) hm hlen
    · rw [if_neg hlen]
      exact ht

/-- Claim C8: Validate rejects exactly the records whose status is neither the
token `success` nor the token `failure`, and the error names the rule. -/
theorem validate_status_iff (r : AdapterResult) :
    ((Validate r).1 ≠ none ↔ r.status ≠ StatusSuccess ∧ r.status ≠ StatusFailure) ∧
    (r.status ≠ StatusSuccess ∧ r.status ≠ StatusFailure →
      (Validate r).1 = some ⟨ascii "status", ascii "must be either 'success' or 'failure'"⟩) := by
  unfold Validate
  by_cases hs : r.status ≠ StatusSuccess ∧ r.status ≠ StatusFailure
  · rw [if_pos hs]
    exact ⟨by simp [hs], fun _ => rfl⟩
  · rw [if_neg hs]
    exact ⟨by simp [hs], fun h => absurd h hs⟩

/-- Claim C10: when Validate fails the record is returned unchanged; no
normalization happens because the status check comes first. -/
theorem validate_error_unchanged (r : AdapterResult) (e : ResultError)
    (h : (Validate r).1 = some e) : (Validate r).2 = r := by
  unfold Validate at h ⊢
  by_cases hs : r.status ≠ StatusSuccess ∧ r.status ≠ StatusFailure
  · rw [if_pos hs]
  · rw [if_neg hs] at h
    exact Option.noConfusion h

/-- Claim C9 counterexample: a record whose reason is 129 bytes of invalid UTF-8
(an ASCII byte followed by 128 continuation bytes) passes Validate with an
EMPTY reason: `truncateUTF8`'s fallback returns the empty string. -/
theorem validate_empty_reason_counterexample :
    (Validate ⟨StatusSuccess, 65 :: List.replicate 128 128, ascii "m"⟩).1 = none ∧
    (Validate ⟨StatusSuccess, 65 :: List.replicate 128 128, ascii "m"⟩).2.reason = [] := by
  constructor
  · decide
  · decide

/-- Claim C9 (amended): for a record with a valid status, empty or
whitespace-only fields are replaced by the distinct fixed defaults; the
normalized fields are never empty provided the original field bytes are
valid UTF-8 (the only inputs reachable through the JSON parser). -/
theorem validate_normalization (r : AdapterResult)
    (hs : r.status = StatusSuccess ∨ r.status = StatusFailure) :
    (Validate r).1 = none ∧
    (onlySpaces r.reason = true → (Validate r).2.reason = DefaultReason) ∧
    (onlySpaces r.message = true → (Validate r).2.message = DefaultMessage) ∧
    DefaultReason ≠ DefaultMessage ∧
    (validUTF8 r.reason = true → (Validate r).2.reason ≠ []) ∧
    (validUTF8 r.message = true → (Validate r).2.message ≠ []) := by
  have hneg : ¬(r.status ≠ StatusSuccess ∧ r.status ≠ StatusFailure) := by
    rcases hs with h | h <;> simp [h]
  unfold Validate
  rw [if_neg hneg]
  refine ⟨rfl, ?_, ?_, by decide, ?_, ?_⟩
  · intro h
    exact normalizeField_of_onlySpaces h (by decide)
  · intro h
    exact normalizeField_of_onlySpaces h (by decide)
  · intro h
    exact normalizeField_ne_nil h (by decide) (by decide) (by decide)
  · intro h
    exact normalizeField_ne_nil h (by decide) (by decide) (by decide)

end Result
namespace K8s

theorem mergeLoop_found_identical (newC : BatchJobCondition) :
    ∀ (l : List BatchJobCondition) (c : BatchJobCondition),
      l.find? (fun d => decide (d.type = newC.type)) = some c →
      c.status = newC.status → c.reason = newC.reason → c.message = newC.message →
      mergeLoop newC l = .identical := by
  intro l
  induction l with
  | nil => intro c h; simp at h
  | cons e rest ih =>
    intro c h hs hr hm
    by_cases he : e.type = newC.type
    · rw [List.find?_cons_of_pos _ (by simpa using he)] at h
      cases h
      simp [mergeLoop, he, hs, hr, hm]
    · rw [List.find?_cons_of_neg _ (by simpa using he)] at h
      simp [mergeLoop, he, ih c h hs hr hm]

theorem mergeLoop_found_different (newC : BatchJobCondition) :
    ∀ (l : List BatchJobCondition) (c : BatchJobCondition),
      l.find? (fun d => decide (d.type = newC.type)) = some c →
      ¬(c.status = newC.status ∧ c.reason = newC.reason ∧ c.message = newC.message) →
      ∃ pre suf, l = pre ++ c :: suf ∧ (∀ d ∈ pre, d.type ≠ newC.type) ∧
        mergeLoop newC l = .merged (pre ++ newC :: suf) := by
  intro l
  induction l with
  | nil => intro c h; simp at h
  | cons e rest ih =>
    intro c h hne
    by_cases he : e.type = newC.type
    · rw [List.find?_cons_of_pos _ (by simpa using he)] at h
      cases h
      exact ⟨[], rest, rfl, by simp, by simp [mergeLoop, he, hne]⟩
    · rw [List.find?_cons_of_neg _ (by simpa using he)] at h
      obtain ⟨pre, suf, hl, hpre, hm⟩ := ih c h hne
      exact ⟨e :: pre, suf, by simp [hl], by simpa [he] using hpre, by simp [mergeLoop, he, hm]⟩

theorem mergeLoop_not_found (newC : BatchJobCondition) :
    ∀ (l : List BatchJobCondition),
      l.find? (fun d => decide (d.type = newC.type)) = none →
      mergeLoop newC l = .merged (l ++ [newC]) := by
  intro l
  induction l with
  | nil => intro _; rfl
  | cons e rest ih =>
    intro h
    rw [List.find?_cons] at h
    split at h
    · exact absurd h (by simp)
    · next he =>
      have he' : ¬ e.type = newC.type := by simpa using he
      simp [mergeLoop, he', ih h]


end K8s

namespace K8s

/-- Claim C6: publishing a condition semantically identical (same type,
status, reason, message) to the remote's existing condition of that type is
a no-op (so every existing LastTransitionTime, in particular that
condition's, is preserved and no status write occurs); a differing
condition replaces the first existing condition of its type in place, and
is appended when no condition of that type exists. -/
theorem updateJobStatus_spec (condition : JobCondition)
    (existing : List BatchJobCondition) (now : Nat)
    (hv : condition.status = ConditionTrue ∨ condition.status = ConditionFalse ∨
      condition.status = ConditionUnknown) :
    (∀ c, existing.find? (fun d => decide (d.type = condition.type)) = some c →
      (c.status = condition.status ∧ c.reason = condition.reason ∧ c.message = condition.message →
        UpdateJobStatus condition existing now = .noop) ∧
      (¬(c.status = condition.status ∧ c.reason = condition.reason ∧ c.message = condition.message) →
        ∃ pre suf, existing = pre ++ c :: suf ∧ (∀ d ∈ pre, d.type ≠ condition.type) ∧
          UpdateJobStatus condition existing now = .write (pre ++
            { type := condition.type
              status := condition.status
              lastTransitionTime := if condition.lastTransitionTime = 0 then now else condition.lastTransitionTime
              reason := condition.reason
              message := condition.message } :: suf))) ∧
    (existing.find? (fun d => decide (d.type = condition.type)) = none →
      UpdateJobStatus condition existing now = .write (existing ++
        [{ type := condition.type
           status := condition.status
           lastTransitionTime := if condition.lastTransitionTime = 0 then now else condition.lastTransitionTime
           reason := condition.reason
           message := condition.message }])) := by
  have hvneg : ¬(condition.status ≠ ConditionTrue ∧ condition.status ≠ ConditionFalse ∧
      condition.status ≠ ConditionUnknown) := by
    rcases hv with h | h | h <;> simp [h]
  constructor
  · intro c hfind
    constructor
    · rintro ⟨hs, hr, hm⟩
      have hid := mergeLoop_found_identical
        { type := condition.type
          status := condition.status
          lastTransitionTime := if condition.lastTransitionTime = 0 then now else condition.lastTransitionTime
          reason := condition.reason
          message := condition.message } existing c hfind hs hr hm
      unfold UpdateJobStatus
      rw [if_neg hvneg]
      simp only [hid]
    · intro hne
      obtain ⟨pre, suf, hl, hpre, hm⟩ := mergeLoop_found_different
        { type := condition.type
          status := condition.status
          lastTransitionTime := if condition.lastTransitionTime = 0 then now else condition.lastTransitionTime
          reason := condition.reason
          message := condition.message } existing c hfind hne
      refine ⟨pre, suf, hl, hpre, ?_⟩
      unfold UpdateJobStatus
      rw [if_neg hvneg]
      simp only [hm]
  · intro hfind
    have hm := mergeLoop_not_found
      { type := condition.type
        status := condition.status
        lastTransitionTime := if condition.lastTransitionTime = 0 then now else condition.lastTransitionTime
        reason := condition.reason
        message := condition.message } existing hfind
    unfold UpdateJobStatus
    rw [if_neg hvneg]
    simp only [hm]

end K8s

namespace Reporter

/-- Claim C1: when the artifact parses into a valid record,
HandleTermination publishes the condition computed from that record's own
status/reason/message (status `success` giving True, otherwise False),
independently of the container's exit code and termination reason; the
exit-code classification path is not consulted. -/
theorem handleTermination_artifact_wins (r : StatusReporter)
    (terminated : ContainerStateTerminated) (fs : FsState)
    (pubErr : Option (List Nat)) (res : Result.AdapterResult)
    (h : tryParseResultFile fs = .ok res) :
    (HandleTermination r terminated fs pubErr).1 =
      { type := r.conditionType
        status := if res.status = Result.StatusSuccess then ConditionStatusTrue else ConditionStatusFalse
        reason := res.reason
        message := res.message } := by
  unfold HandleTermination
  rw [h]
  unfold UpdateFromResult Result.AdapterResult.IsSuccess
  cases pubErr <;> simp

/-- Claim C4: a run resolved by a successfully parsed artifact — even one
describing a failed job — returns a nil error exactly when the condition
was published successfully; its completion status fails only if publishing
itself errors. -/
theorem updateFromResult_err_iff (r : StatusReporter) (res : Result.AdapterResult)
    (pubErr : Option (List Nat)) :
    (UpdateFromResult r res pubErr).2 = none ↔ pubErr = none := by
  unfold UpdateFromResult
  cases pubErr <;> simp

/-- Claim C5: HandleTermination returns a nil error only on the happy-path
artifact-based outcome with a successful publish; every exit-code-classified
outcome (AdapterOOMKilled, AdapterExitedWithError, AdapterMissingResults)
yields a non-nil error even when the condition was published successfully. -/
theorem handleTermination_err_iff (r : StatusReporter)
    (terminated : ContainerStateTerminated) (fs : FsState) (pubErr : Option (List Nat)) :
    (HandleTermination r terminated fs pubErr).2 = none ↔
      (pubErr = none ∧ ∃ res, tryParseResultFile fs = .ok res) := by
  unfold HandleTermination
  cases hp : tryParseResultFile fs with
  | ok res =>
    unfold UpdateFromResult
    cases pubErr <;> simp
  | errNotExist =>
    unfold UpdateFromTerminatedContainer
    cases pubErr <;> simp
  | errOther m =>
    unfold UpdateFromTerminatedContainer
    cases pubErr <;> simp

end Reporter

namespace Reporter

/-- Claim C2: without a valid artifact, UpdateFromTerminatedContainer
classifies in fixed order — OOMKilled reason wins with a fixed message,
then non-zero exit code gives AdapterExitedWithError with the exit code and
reason in the message, else AdapterMissingResults — always with condition
status False. -/
theorem updateFromTerminatedContainer_classification (r : StatusReporter)
    (t : ContainerStateTerminated) (pubErr : Option (List Nat)) :
    (UpdateFromTerminatedContainer r t pubErr).1.status = ConditionStatusFalse ∧
    (t.reason = ContainerReasonOOMKilled →
      (UpdateFromTerminatedContainer r t pubErr).1.reason = ReasonAdapterOOMKilled ∧
      (UpdateFromTerminatedContainer r t pubErr).1.message =
        ascii "Adapter container was killed due to out of memory (OOMKilled)") ∧
    (t.reason ≠ ContainerReasonOOMKilled → t.exitCode ≠ 0 →
      (UpdateFromTerminatedContainer r t pubErr).1.reason = ReasonAdapterExitedWithError ∧
      (∃ a b, (UpdateFromTerminatedContainer r t pubErr).1.message =
        a ++ ascii (toString t.exitCode) ++ b) ∧
      (∃ a, (UpdateFromTerminatedContainer r t pubErr).1.message = a ++ t.reason)) ∧
    (t.reason ≠ ContainerReasonOOMKilled → t.exitCode = 0 →
      (UpdateFromTerminatedContainer r t pubErr).1.reason = ReasonAdapterMissingResults) := by
  refine ⟨?_, ?_, ?_, ?_⟩
  · cases pubErr <;> rfl
  · intro h1
    cases pubErr <;> simp [UpdateFromTerminatedContainer, h1]
  · intro h1 h2
    refine ⟨?_, ?_, ?_⟩
    · cases pubErr <;> simp [UpdateFromTerminatedContainer, h1, h2]
    · refine ⟨ascii "Adapter container exited with code ", ascii ": " ++ t.reason, ?_⟩
      cases pubErr <;> simp [UpdateFromTerminatedContainer, h1, h2]
    · refine ⟨ascii "Adapter container exited with code " ++ ascii (toString t.exitCode) ++ ascii ": ", ?_⟩
      cases pubErr <;> simp [UpdateFromTerminatedContainer, h1, h2]
  · intro h1 h2
    cases pubErr <;> simp [UpdateFromTerminatedContainer, h1, h2]

/-- Claim C3 (amended): UpdateFromTimeout queries the container state
exactly once; a terminated container delegates directly to exit-code
classification (`UpdateFromTerminatedContainer`), without the Termination
Decision Tree's artifact re-read, so a valid artifact that appeared by the
deadline does not win on this path; a running container, a query error, or
a nil status publishes a False condition with reason AdapterTimeout whose
message names the configured deadline, and a non-nil timeout error is
returned to the caller. -/
theorem updateFromTimeout_spec (r : StatusReporter) (query : ContainerQuery)
    (pubErr : Option (List Nat)) :
    (UpdateFromTimeout r query pubErr).1 = 1 ∧
    (∀ t, query = .terminated t →
      (UpdateFromTimeout r query pubErr).2 = UpdateFromTerminatedContainer r t pubErr) ∧
    ((∀ t, query ≠ .terminated t) →
      (UpdateFromTimeout r query pubErr).2.1.status = ConditionStatusFalse ∧
      (UpdateFromTimeout r query pubErr).2.1.reason = ReasonAdapterTimeout ∧
      (∃ a, (UpdateFromTimeout r query pubErr).2.1.message = a ++ r.maxWaitTime) ∧
      (UpdateFromTimeout r query pubErr).2.2 ≠ none ∧
      (pubErr = none →
        (UpdateFromTimeout r query pubErr).2.2 = some (ascii "timeout waiting for adapter results"))) := by
  refine ⟨?_, ?_, ?_⟩
  · cases query <;> cases pubErr <;> rfl
  · intro t ht
    subst ht
    rfl
  · intro hne
    cases query with
    | terminated t => exact absurd rfl (hne t)
    | queryError m =>
      cases pubErr with
      | none =>
        exact ⟨rfl, rfl, ⟨ascii "Adapter did not produce results within ", rfl⟩,
          by simp [UpdateFromTimeout], fun _ => rfl⟩
      | some e =>
        exact ⟨rfl, rfl, ⟨ascii "Adapter did not produce results within ", rfl⟩,
          by simp [UpdateFromTimeout], nofun⟩
    | nilStatus =>
      cases pubErr with
      | none =>
        exact ⟨rfl, rfl, ⟨ascii "Adapter did not produce results within ", rfl⟩,
          by simp [UpdateFromTimeout], fun _ => rfl⟩
      | some e =>
        exact ⟨rfl, rfl, ⟨ascii "Adapter did not produce results within ", rfl⟩,
          by simp [UpdateFromTimeout], nofun⟩
    | running =>
      cases pubErr with
      | none =>
        exact ⟨rfl, rfl, ⟨ascii "Adapter did not produce results within ", rfl⟩,
          by simp [UpdateFromTimeout], fun _ => rfl⟩
      | some e =>
        exact ⟨rfl, rfl, ⟨ascii "Adapter did not produce results within ", rfl⟩,
          by simp [UpdateFromTimeout], nofun⟩

/-- Claim C3 counterexample: the timeout path's handling of a terminated
container is NOT the Termination Decision Tree.  With a valid `success`
artifact present at the results path at the moment of the deadline, the
decision tree (`HandleTermination`, which re-reads the artifact first)
would publish the artifact's own condition, but `UpdateFromTimeout`
publishes the exit-code classification `AdapterExitedWithError` instead:
the two published conditions differ at this concrete input. -/
theorem updateFromTimeout_skips_artifact_counterexample :
    (UpdateFromTimeout ⟨ascii "Ready", ascii "p", ascii "5m0s"⟩
        (ContainerQuery.terminated ⟨ascii "Error", 1⟩) none).2.1 ≠
      (HandleTermination ⟨ascii "Ready", ascii "p", ascii "5m0s"⟩ ⟨ascii "Error", 1⟩
        (FsState.decoded ⟨ascii "success", ascii "AllChecksPassed", ascii "ok"⟩) none).1 := by
  decide

end Reporter

/-! ## Witnesses: the claim theorems applied at concrete inputs -/

namespace Result

/-- Witness for C7 at a 130-byte string with a two-byte rune straddling the
128-byte cut: the truncation keeps at most 128 bytes, is a prefix, ends on
a rune boundary and stays valid UTF-8. -/
theorem truncateUTF8_valid_prefix_witness :
    (truncateUTF8 (List.replicate 127 65 ++ [0xC3, 0xA9, 70]) 128).length ≤ 128 ∧
    truncateUTF8 (List.replicate 127 65 ++ [0xC3, 0xA9, 70]) 128 =
      (List.replicate 127 65 ++ [0xC3, 0xA9, 70]).take
        (truncateUTF8 (List.replicate 127 65 ++ [0xC3, 0xA9, 70]) 128).length ∧
    runeStart ((List.replicate 127 65 ++ [0xC3, 0xA9, 70]).getD
      (truncateUTF8 (List.replicate 127 65 ++ [0xC3, 0xA9, 70]) 128).length 0) = true ∧
    validUTF8 (truncateUTF8 (List.replicate 127 65 ++ [0xC3, 0xA9, 70]) 128) = true :=
  truncateUTF8_valid_prefix (List.replicate 127 65 ++ [0xC3, 0xA9, 70]) 128
    (by decide) (by decide)

/-- Witness for C8 at a record with status `invalid`. -/
theorem validate_status_iff_witness :
    (Validate ⟨ascii "invalid", ascii "Test", ascii "Test message"⟩).1 =
      some ⟨ascii "status", ascii "must be either 'success' or 'failure'"⟩ :=
  (validate_status_iff ⟨ascii "invalid", ascii "Test", ascii "Test message"⟩).2 (by decide)

/-- Witness for C9 (amended) at a record with whitespace-only reason and a
plain message. -/
theorem validate_normalization_witness :
    (Validate ⟨ascii "success", ascii "   ", ascii "hello"⟩).2.reason = DefaultReason ∧
    (Validate ⟨ascii "success", ascii "   ", ascii "hello"⟩).2.message ≠ [] :=
  ⟨(validate_normalization ⟨ascii "success", ascii "   ", ascii "hello"⟩ (Or.inl rfl)).2.1
      (by decide),
   (validate_normalization ⟨ascii "success", ascii "   ", ascii "hello"⟩ (Or.inl rfl)).2.2.2.2.2
      (by decide)⟩

/-- Witness for C10 at a record with an invalid status and untrimmed
fields: Validate leaves it untouched. -/
theorem validate_error_unchanged_witness :
    (Validate ⟨ascii "invalid", ascii "  x ", ascii " m "⟩).2 =
      ⟨ascii "invalid", ascii "  x ", ascii " m "⟩ :=
  validate_error_unchanged ⟨ascii "invalid", ascii "  x ", ascii " m "⟩
    ⟨ascii "status", ascii "must be either 'success' or 'failure'"⟩ (by decide)

end Result

namespace K8s

/-- Witness for C6: republishing the identical Ready condition is a no-op
(the stored LastTransitionTime 42 survives because nothing is written). -/
theorem updateJobStatus_spec_witness :
    UpdateJobStatus ⟨ascii "Ready", ascii "True", ascii "Done", ascii "ok", 0⟩
      [⟨ascii "Ready", ascii "True", 42, ascii "Done", ascii "ok"⟩] 100 = UpdateOutcome.noop :=
  ((updateJobStatus_spec ⟨ascii "Ready", ascii "True", ascii "Done", ascii "ok", 0⟩
      [⟨ascii "Ready", ascii "True", 42, ascii "Done", ascii "ok"⟩] 100 (Or.inl rfl)).1
    ⟨ascii "Ready", ascii "True", 42, ascii "Done", ascii "ok"⟩ (by decide)).1 ⟨rfl, rfl, rfl⟩

end K8s

namespace Reporter

/-- Witness for C1: a decoded artifact describing a failed job overrides an
OOM-killed container with exit code 137. -/
theorem handleTermination_artifact_wins_witness :
    (HandleTermination ⟨ascii "Ready", ascii "pod-1", ascii "5m0s"⟩ ⟨ascii "OOMKilled", 137⟩
      (FsState.decoded ⟨ascii "failure", ascii "DNSFailed", ascii "lookup failed"⟩) none).1 =
      { type := ascii "Ready"
        status := if ascii "failure" = Result.StatusSuccess then ConditionStatusTrue
          else ConditionStatusFalse
        reason := ascii "DNSFailed"
        message := ascii "lookup failed" } :=
  handleTermination_artifact_wins ⟨ascii "Ready", ascii "pod-1", ascii "5m0s"⟩
    ⟨ascii "OOMKilled", 137⟩
    (FsState.decoded ⟨ascii "failure", ascii "DNSFailed", ascii "lookup failed"⟩) none
    ⟨ascii "failure", ascii "DNSFailed", ascii "lookup failed"⟩ (by decide)

/-- Witness for C2 at the three classification inputs: OOMKilled/137,
Error/1 and Completed/0. -/
theorem updateFromTerminatedContainer_classification_witness :
    (UpdateFromTerminatedContainer ⟨ascii "Ready", ascii "p", ascii "5m0s"⟩
      ⟨ascii "OOMKilled", 137⟩ none).1.reason = ReasonAdapterOOMKilled ∧
    (UpdateFromTerminatedContainer ⟨ascii "Ready", ascii "p", ascii "5m0s"⟩
      ⟨ascii "Error", 1⟩ none).1.reason = ReasonAdapterExitedWithError ∧
    (UpdateFromTerminatedContainer ⟨ascii "Ready", ascii "p", ascii "5m0s"⟩
      ⟨ascii "Completed", 0⟩ none).1.reason = ReasonAdapterMissingResults :=
  ⟨((updateFromTerminatedContainer_classification ⟨ascii "Ready", ascii "p", ascii "5m0s"⟩
      ⟨ascii "OOMKilled", 137⟩ none).2.1 rfl).1,
   ((updateFromTerminatedContainer_classification ⟨ascii "Ready", ascii "p", ascii "5m0s"⟩
      ⟨ascii "Error", 1⟩ none).2.2.1 (by decide) (by decide)).1,
   (updateFromTerminatedContainer_classification ⟨ascii "Ready", ascii "p", ascii "5m0s"⟩
      ⟨ascii "Completed", 0⟩ none).2.2.2 (by decide) rfl⟩

/-- Witness for C3: a terminated container delegates to the decision tree;
a still-running container yields the AdapterTimeout reason. -/
theorem updateFromTimeout_spec_witness :
    (UpdateFromTimeout ⟨ascii "Ready", ascii "p", ascii "5m0s"⟩
      (ContainerQuery.terminated ⟨ascii "Error", 1⟩) none).2 =
      UpdateFromTerminatedContainer ⟨ascii "Ready", ascii "p", ascii "5m0s"⟩
        ⟨ascii "Error", 1⟩ none ∧
    (UpdateFromTimeout ⟨ascii "Ready", ascii "p", ascii "5m0s"⟩
      ContainerQuery.running none).2.1.reason = ReasonAdapterTimeout :=
  ⟨(updateFromTimeout_spec ⟨ascii "Ready", ascii "p", ascii "5m0s"⟩
      (ContainerQuery.terminated ⟨ascii "Error", 1⟩) none).2.1 ⟨ascii "Error", 1⟩ rfl,
   ((updateFromTimeout_spec ⟨ascii "Ready", ascii "p", ascii "5m0s"⟩
      ContainerQuery.running none).2.2
      (fun t h => ContainerQuery.noConfusion h)).2.1⟩

end Reporter
